import Mathlib

/-!
Verification development for the real-time delivery core of a gamified-platform
backend (Go source: `internal/router/ws/hub.go`, `internal/router/ws/leaderboard.go`,
the connection/pump file and the notification helpers).

The Go code is shallowly embedded: Go channels of byte slices become bounded
queues (`ChanState`) held in an explicit heap keyed by an abstract channel id;
the hub's `map[string]*Client` becomes an association list from user id to
channel id; each `select { case ch <- m: default: ... }` becomes `chanTrySend`;
`close(ch)` becomes `chanClose`, which returns `none` (a Go panic) when the
channel is already closed, exactly as Go's runtime does.
-/

namespace GroveWS

/-! ## Association lists (model of Go maps) -/

section Assoc

variable {K V : Type} [DecidableEq K]

/-- `m[k]` lookup on a Go map modelled as an association list. -/
def assocGet : List (K × V) → K → Option V
  | [], _ => none
  | (k, v) :: rest, key => if k = key then some v else assocGet rest key

/-- `delete(m, k)` on a Go map. -/
def assocDel : List (K × V) → K → List (K × V)
  | [], _ => []
  | (k, v) :: rest, key => if k = key then assocDel rest key else (k, v) :: assocDel rest key

/-- `m[k] = v` assignment on a Go map. -/
def assocPut (l : List (K × V)) (key : K) (v : V) : List (K × V) :=
  (key, v) :: assocDel l key

/-- Number of entries for a key (a well-formed map has at most one). -/
def countKey : List (K × V) → K → Nat
  | [], _ => 0
  | (k, _) :: rest, key => (if k = key then 1 else 0) + countKey rest key

theorem assocGet_del_self (l : List (K × V)) (k : K) : assocGet (assocDel l k) k = none := by
  induction l with
  | nil => rfl
  | cons p rest ih =>
    obtain ⟨k', v⟩ := p
    by_cases h : k' = k <;> simp [assocDel, assocGet, h, ih]

theorem assocGet_del_other (l : List (K × V)) (k k' : K) (h : k ≠ k') :
    assocGet (assocDel l k) k' = assocGet l k' := by
  induction l with
  | nil => rfl
  | cons p rest ih =>
    obtain ⟨k0, v⟩ := p
    simp only [assocDel]
    by_cases h0 : k0 = k
    · rw [if_pos h0, ih]
      have h2 : ¬k0 = k' := by rw [h0]; exact h
      simp [assocGet, h2]
    · rw [if_neg h0]
      simp only [assocGet]
      by_cases h1 : k0 = k'
      · rw [if_pos h1, if_pos h1]
      · rw [if_neg h1, if_neg h1, ih]

theorem assocGet_put_self (l : List (K × V)) (k : K) (v : V) :
    assocGet (assocPut l k v) k = some v := by
  simp [assocPut, assocGet]

theorem assocGet_put_other (l : List (K × V)) (k k' : K) (v : V) (h : k ≠ k') :
    assocGet (assocPut l k v) k' = assocGet l k' := by
  simp [assocPut, assocGet, fun hh => h hh, assocGet_del_other l k k' h]

theorem countKey_del_self (l : List (K × V)) (k : K) : countKey (assocDel l k) k = 0 := by
  induction l with
  | nil => rfl
  | cons p rest ih =>
    obtain ⟨k', v⟩ := p
    by_cases h : k' = k
    · simpa [assocDel, h] using ih
    · simpa [assocDel, countKey, h] using ih

theorem countKey_put_self (l : List (K × V)) (k : K) (v : V) :
    countKey (assocPut l k v) k = 1 := by
  simp [assocPut, countKey, countKey_del_self l k]

theorem assocGet_of_mem_nodup (l : List (K × V)) (k : K) (v : V)
    (hmem : (k, v) ∈ l) (hnd : (l.map Prod.fst).Nodup) : assocGet l k = some v := by
  induction l with
  | nil => cases hmem
  | cons p rest ih =>
    obtain ⟨k0, v0⟩ := p
    simp only [List.map_cons, List.nodup_cons] at hnd
    rcases List.mem_cons.mp hmem with heq | hrest
    · cases heq
      simp [assocGet]
    · have hne : k0 ≠ k := by
        intro hk; subst hk
        exact hnd.1 (List.mem_map.mpr ⟨(k0, v), hrest, rfl⟩)
      simp [assocGet, hne, ih hrest hnd.2]

end Assoc

/-! ## Channels (model of Go buffered channels of serialized frames) -/

/-- A serialized outbound frame (`[]byte` in Go). -/
abbrev Msg := String

/-- State of a Go buffered channel `chan []byte` with capacity `cap`. -/
structure ChanState where
  buf : List Msg
  cap : Nat
  closed : Bool
deriving DecidableEq, Repr

/-- `make(chan []byte, cap)`. -/
def newChan (cap : Nat) : ChanState := ⟨[], cap, false⟩

/-- `close(ch)`: Go panics on closing an already-closed channel, modelled as `none`. -/
def chanClose (ch : ChanState) : Option ChanState :=
  if ch.closed then none else some { ch with closed := true }

/-- Result of `select { case ch <- m: ...; default: ... }`. -/
inductive SendOutcome where
  | sent
  | dropped
deriving DecidableEq, Repr

/-- `select { case ch <- m: default: }`: a send on a closed channel panics (`none`);
a send on a full channel takes the `default` branch; otherwise the message is
enqueued at the back of the buffer. -/
def chanTrySend (ch : ChanState) (m : Msg) : Option (ChanState × SendOutcome) :=
  if ch.closed then none
  else if ch.buf.length < ch.cap then some ({ ch with buf := ch.buf ++ [m] }, .sent)
  else some (ch, .dropped)

/-- The heap of live channels, keyed by an abstract channel id. -/
abbrev ChanHeap := List (Nat × ChanState)

/-! ## Hub data model (`hub.go`) -/

/-- A WebSocket client connection (`Client` in `hub.go`): the user identity, an id
for its `Send` channel, and the role from the token claims. -/
structure Client where
  userID : String
  qid : Nat
  userRole : String
deriving DecidableEq, Repr

/-- The hub registry (`Hub.clients : map[string]*Client`) together with the channel
heap holding the `Send` channel of every connection ever created. -/
structure HubState where
  clients : List (String × Nat)
  chans : ChanHeap
deriving DecidableEq, Repr

/-- The retire phase of `Hub.Run`'s register case (lines 109–112 of `hub.go`):
if an old connection exists for the user, `close(oldClient.Send)` and
`delete(h.clients, client.UserID)`. -/
def retireOld (h : HubState) (uid : String) : Option HubState :=
  match assocGet h.clients uid with
  | none => some h
  | some oldQid =>
    match assocGet h.chans oldQid with
    | none => none
    | some och =>
      match chanClose och with
      | none => none
      | some och' => some ⟨assocDel h.clients uid, assocPut h.chans oldQid och'⟩

/-- The install phase of `Hub.Run`'s register case (line 113 of `hub.go`):
`h.clients[client.UserID] = client`. -/
def installNew (h : HubState) (c : Client) : HubState :=
  ⟨assocPut h.clients c.userID c.qid, h.chans⟩

/-- `Hub.Run`'s register case (lines 106–115 of `hub.go`): retire any existing
connection for the same user id, then install the new one. -/
def registerStep (h : HubState) (c : Client) : Option HubState :=
  (retireOld h c.userID).map (fun h1 => installNew h1 c)

/-- `Hub.Run`'s unregister case (lines 117–124 of `hub.go`): if the identity is
present in the map, `delete(h.clients, client.UserID)` and `close(client.Send)`
— note that the presence check does not compare the registered connection with
the caller, and the channel closed is always the caller's. -/
def unregisterStep (h : HubState) (c : Client) : Option HubState :=
  match assocGet h.clients c.userID with
  | none => some h
  | some _ =>
    match assocGet h.chans c.qid with
    | none => none
    | some ch =>
      match chanClose ch with
      | none => none
      | some ch' => some ⟨assocDel h.clients c.userID, assocPut h.chans c.qid ch'⟩

/-! ## JSON values and serialization (model of `encoding/json` on the payloads used here) -/

/-- A JSON value, as produced by `json.Unmarshal` into an `interface\x7b\x7d`:
`nil`, `bool`, number, `string`, `[]interface\x7b\x7d`, `map[string]interface\x7b\x7d`. -/
inductive JValue where
  | jnull
  | jbool (b : Bool)
  | jnum (n : Int)
  | jstr (s : String)
  | jarr (xs : List JValue)
  | jobj (fields : List (String × JValue))

/-- Minimal JSON string escaping (quote, backslash, newline). -/
def escChar (c : Char) : String :=
  if c = '"' then "\\\"" else if c = '\\' then "\\\\" else if c = '\n' then "\\n"
  else String.singleton c

def jsonEscape (s : String) : String := String.join (s.data.map escChar)

def commaJoin : List String → String
  | [] => ""
  | [s] => s
  | s :: rest => s ++ "," ++ commaJoin rest

mutual

/-- Serialize a JSON value (model of `json.Marshal` on a decoded value). -/
def marshalJValue : JValue → String
  | .jnull => "null"
  | .jbool b => if b then "true" else "false"
  | .jnum n => toString n
  | .jstr s => "\"" ++ jsonEscape s ++ "\""
  | .jarr xs => "[" ++ marshalArr xs ++ "]"
  | .jobj fs => "\x7b" ++ marshalObj fs ++ "\x7d"

/-- Comma-separated serialization of a JSON array's elements. -/
def marshalArr : List JValue → String
  | [] => ""
  | [x] => marshalJValue x
  | x :: rest => marshalJValue x ++ "," ++ marshalArr rest

/-- Comma-separated serialization of a JSON object's fields. -/
def marshalObj : List (String × JValue) → String
  | [] => ""
  | [(k, v)] => "\"" ++ jsonEscape k ++ "\":" ++ marshalJValue v
  | (k, v) :: rest =>
      "\"" ++ jsonEscape k ++ "\":" ++ marshalJValue v ++ "," ++ marshalObj rest

end

/-- `NotificationPayload` from `hub.go`: id, notification type, title, message,
free-form data (`Data interface\x7b\x7d`, `jnull` models Go `nil`), creation time. -/
structure NotificationPayload where
  id : String
  type : String
  title : String
  message : String
  data : JValue
  createdAt : String

/-- `json.Marshal` of a `NotificationPayload`: struct fields in declaration order,
`data` omitted when nil (`omitempty`). -/
def marshalNotificationPayload (n : NotificationPayload) : String :=
  "\x7b\"id\":\"" ++ jsonEscape n.id ++ "\",\"type\":\"" ++ jsonEscape n.type ++
  "\",\"title\":\"" ++ jsonEscape n.title ++ "\",\"message\":\"" ++ jsonEscape n.message ++
  "\"" ++
  (match n.data with
   | JValue.jnull => ""
   | d => ",\"data\":" ++ marshalJValue d) ++
  ",\"created_at\":\"" ++ jsonEscape n.createdAt ++ "\"\x7d"

/-- `json.Marshal` of `WSMessage\x7bType: MessageTypeNotification, Data: n\x7d`:
the `Payload json.RawMessage` field has no `omitempty`, so a nil payload
marshals as `null`. -/
def marshalWSMessageNotification (n : NotificationPayload) : Msg :=
  "\x7b\"type\":\"notification\",\"payload\":null,\"data\":" ++
    marshalNotificationPayload n ++ "\x7d"

/-! ## Hub delivery operations -/

/-- `Hub.SendNotification` (lines 143–174 of `hub.go`): look up the user's
connection; if absent, log and return `nil`; otherwise marshal the message and
attempt a non-blocking send, dropping on a full channel; return `nil`.
The `Option` wrapper models Go panics (send on a closed channel); the inner
`Option String` is the returned `error`. -/
def SendNotification (h : HubState) (userID : String) (n : NotificationPayload) :
    Option (HubState × Option String) :=
  match assocGet h.clients userID with
  | none => some (h, none)
  | some qid =>
    let messageBytes := marshalWSMessageNotification n
    match assocGet h.chans qid with
    | none => none
    | some ch =>
      match chanTrySend ch messageBytes with
      | none => none
      | some (ch', SendOutcome.sent) => some (⟨h.clients, assocPut h.chans qid ch'⟩, none)
      | some (_, SendOutcome.dropped) => some (h, none)

/-- The broadcast loop shared by `Hub.Run` (lines 128–137 of `hub.go`) and
`LeaderboardHub.Run` (lines 86–95 of `leaderboard.go`): for every registered
entry, try a non-blocking send; on the `default` branch (full channel), close
the channel and delete the entry from the registry. Generic in the key type
(`String` user ids for the Hub, client records for the LeaderboardHub). -/
def fanoutGo {K : Type} [DecidableEq K] (m : Msg) :
    List (K × Nat) → List (K × Nat) → ChanHeap → Option (List (K × Nat) × ChanHeap)
  | [], cs, hp => some (cs, hp)
  | (k, qid) :: rest, cs, hp =>
    match assocGet hp qid with
    | none => none
    | some ch =>
      match chanTrySend ch m with
      | none => none
      | some (ch', SendOutcome.sent) => fanoutGo m rest cs (assocPut hp qid ch')
      | some (_, SendOutcome.dropped) =>
        match chanClose ch with
        | none => none
        | some chC => fanoutGo m rest (assocDel cs k) (assocPut hp qid chC)

/-- `Hub.Run`'s broadcast case (lines 126–137 of `hub.go`). -/
def broadcastStep (h : HubState) (m : Msg) : Option HubState :=
  (fanoutGo m h.clients h.clients h.chans).map fun r => ⟨r.1, r.2⟩

/-- `Hub.subscribeToNotifications`' handling of one broker message
(lines 205–219 of `hub.go`): unmarshal a `NotificationPayload` (the `decode`
parameter models `json.Unmarshal`; `none` = error, logged and skipped); if the
`Data` field type-asserts to `map[string]interface\x7b\x7d` and holds a string
under `"user_id"`, call `SendNotification` for that user (its error is ignored);
otherwise fall through silently. The second component records the identity a
local delivery was attempted for, if any. -/
def processNotificationMsg (decode : Msg → Option NotificationPayload)
    (h : HubState) (payload : Msg) : Option (HubState × Option String) :=
  match decode payload with
  | none => some (h, none)
  | some n =>
    match n.data with
    | JValue.jobj fields =>
      match assocGet fields "user_id" with
      | some (JValue.jstr uid) => (SendNotification h uid n).map (fun r => (r.1, some uid))
      | _ => some (h, none)
    | _ => some (h, none)

/-! ## Leaderboard hub (`leaderboard.go`) -/

/-- `LeaderboardClient`: its `Send` channel id plus the cached scope membership
(`leaderboardType`, `scopeID`) recorded at handshake. -/
structure LeaderboardClient where
  qid : Nat
  leaderboardType : String
  scopeID : String
deriving DecidableEq, Repr

/-- `LeaderboardHub`: `clients : map[*LeaderboardClient]bool` modelled as an
association list keyed by the client record (the pointer), plus the channel heap. -/
structure LHubState where
  clients : List (LeaderboardClient × Nat)
  chans : ChanHeap
deriving DecidableEq, Repr

/-- `LeaderboardHub.Run`'s broadcast case (lines 85–95 of `leaderboard.go`). -/
def lbBroadcastStep (h : LHubState) (m : Msg) : Option LHubState :=
  (fanoutGo m h.clients h.clients h.chans).map fun r => ⟨r.1, r.2⟩

/-- `LeaderboardHub.subscribeToUpdates` handling of one broker message
(lines 106–110 of `leaderboard.go`): the raw payload is forwarded to the
broadcast channel unchanged — no scope inspection happens anywhere on this path. -/
def lbDeliverUpdate (h : LHubState) (payload : Msg) : Option LHubState :=
  lbBroadcastStep h payload

/-- The update message built by `BroadcastLeaderboardUpdate`
(lines 114–127 of `leaderboard.go`): `json.Marshal` of a
`map[string]interface\x7b\x7d` emits keys in sorted order
(scope, scope_id, timestamp, type). -/
def leaderboardUpdateMsg (leaderboardType scopeID : String) (timestamp : Int) : Msg :=
  "\x7b\"scope\":\"" ++ jsonEscape leaderboardType ++ "\",\"scope_id\":\"" ++
  jsonEscape scopeID ++ "\",\"timestamp\":" ++ toString timestamp ++
  ",\"type\":\"leaderboard_update\"\x7d"

/-! ## Connection pumps and liveness constants (connection file) -/

/-- One second in `time.Duration` units (nanoseconds). -/
def second : Nat := 1000000000

/-- `writeWait = 10 * time.Second`. -/
def writeWait : Nat := 10 * second

/-- `pongWait = 60 * time.Second`. -/
def pongWait : Nat := 60 * second

/-- `pingPeriod = (pongWait * 9) / 10`. -/
def pingPeriod : Nat := pongWait * 9 / 10

/-- `maxMessageSize = 512 * 1024`. -/
def maxMessageSize : Nat := 512 * 1024

/-- The pong handler: `c.Conn.SetReadDeadline(time.Now().Add(pongWait))`. -/
def readDeadlineAfterPong (now : Nat) : Nat := now + pongWait

/-- `readPump`'s initial `SetReadDeadline(time.Now().Add(pongWait))`. -/
def readPumpInitialDeadline (now : Nat) : Nat := now + pongWait

/-- Observable teardown effects of one connection's pumps. -/
structure ConnTeardown where
  transportCloses : Nat
  unregisterSends : Nat
deriving DecidableEq, Repr

/-- `c.Hub.unregister <- c` in `readPump`'s deferred function. -/
def sendUnregister (s : ConnTeardown) : ConnTeardown :=
  { s with unregisterSends := s.unregisterSends + 1 }

/-- `c.Conn.Close()`. -/
def closeTransport (s : ConnTeardown) : ConnTeardown :=
  { s with transportCloses := s.transportCloses + 1 }

/-- `readPump`'s deferred exit path (lines 152–155 of the connection file):
`c.Hub.unregister <- c` then `c.Conn.Close()`. -/
def readPumpExit (s : ConnTeardown) : ConnTeardown :=
  closeTransport (sendUnregister s)

/-- `writePump`'s deferred exit path (lines 186–189 of the connection file):
`ticker.Stop()` then `c.Conn.Close()`. -/
def writePumpExit (s : ConnTeardown) : ConnTeardown :=
  closeTransport s

/-- The coalescing loop in `writePump` (lines 207–212 of the connection file):
`n := len(c.Send); for i := 0; i < n; i++ \x7b w.Write(newline); w.Write(<-c.Send) \x7d`.
The accumulator is the frame written so far; receiving pops the queue front. -/
def coalesceLoop : Nat → Msg → List Msg → Msg × List Msg
  | 0, w, q => (w, q)
  | Nat.succ k, w, q =>
    match q with
    | [] => (w, [])
    | msg :: rest => coalesceLoop k (w ++ "\n" ++ msg) rest

/-- One flush of `writePump` after receiving `message` with `send` still queued:
write `message`, then coalesce all currently-pending messages into the same
frame. Returns the frame handed to `w.Close()` and the remaining queue. -/
def writePumpFlush (message : Msg) (send : List Msg) : Msg × List Msg :=
  coalesceLoop send.length message send

/-- Specification-side newline join: the coalesced frame the claim describes
(all messages, in enqueue order, newline-separated, none duplicated or skipped). -/
def joinNL : List Msg → Msg
  | [] => ""
  | [m] => m
  | m :: rest => m ++ "\n" ++ joinNL rest

/-! ## Handshake (`handleWSConnection` in the connection file) -/

/-- The verified token claims (`auth.ValidateToken` result). -/
structure Claims where
  userID : String
  role : String
deriving DecidableEq, Repr

/-- Observable outcome of one handshake request. -/
structure HandshakeOutcome where
  httpStatus : Option Nat
  upgraded : Bool
  client : Option Client
  registered : Bool
  pumpsStarted : Bool
deriving DecidableEq, Repr

/-- Token extraction (lines 86–106 of the connection file): take the `token`
query parameter, strip a `"Bearer "` marker and surrounding space; if empty,
fall back to the `Authorization` header, accepting `"Bearer <tok>"` or a bare
single-word token. -/
def extractToken (queryToken authHeader : String) : String :=
  let t0 := if queryToken ≠ "" then
      (if queryToken.startsWith "Bearer " then queryToken.drop 7 else queryToken).trim
    else queryToken
  if t0 = "" then
    if authHeader ≠ "" then
      match authHeader.splitOn " " with
      | [a, b] => if a = "Bearer" then b else ""
      | [a] => a
      | _ => ""
    else ""
  else t0

/-- `handleWSConnection` (lines 83–148 of the connection file): extract the
token; reject with 401 if missing; validate (`auth.ValidateToken`, modelled by
the `validate` parameter); reject with 401 on failure; only then upgrade the
transport (`upgradeOk` models the upgrader's success), create the `Client` with
a fresh `Send` channel (`freshQid`), register it with the hub and start both
pumps. -/
def handleWSConnection (validate : String → Option Claims)
    (queryToken authHeader : String) (upgradeOk : Bool) (freshQid : Nat) :
    HandshakeOutcome :=
  let tokenString := extractToken queryToken authHeader
  if tokenString = "" then ⟨some 401, false, none, false, false⟩
  else
    match validate tokenString with
    | none => ⟨some 401, false, none, false, false⟩
    | some claims =>
      if upgradeOk then
        let client : Client := ⟨claims.userID, freshQid, claims.role⟩
        ⟨none, true, some client, true, true⟩
      else ⟨none, false, none, false, false⟩

/-! ## Well-formedness of hub states -/

/-- The channel `qid` exists in the heap and is open. -/
def chanOpenAt (hp : ChanHeap) (qid : Nat) : Bool :=
  match assocGet hp qid with
  | some ch => !ch.closed
  | none => false

/-- A reachable hub registry: distinct identities, distinct channels, and every
registered channel live and open. -/
def wellFormed (h : HubState) : Prop :=
  (h.clients.map Prod.fst).Nodup ∧ (h.clients.map Prod.snd).Nodup ∧
    ∀ p ∈ h.clients, chanOpenAt h.chans p.2 = true

/-- A reachable leaderboard hub registry. -/
def lbWellFormed (h : LHubState) : Prop :=
  (h.clients.map Prod.fst).Nodup ∧ (h.clients.map Prod.snd).Nodup ∧
    ∀ p ∈ h.clients, chanOpenAt h.chans p.2 = true

instance (h : HubState) : Decidable (wellFormed h) := by
  unfold wellFormed
  infer_instance

instance (h : LHubState) : Decidable (lbWellFormed h) := by
  unfold lbWellFormed
  infer_instance

/-! ## Concrete states and payloads used to instantiate the theorems -/

/-- A hub with no registered clients and two freshly handshaken channels. -/
def hubW : HubState := ⟨[], [(1, newChan 256), (2, newChan 256)]⟩

/-- A hub with one registered client `u1` on channel 1. -/
def hubW3 : HubState := ⟨[("u1", 1)], [(1, newChan 256)]⟩

/-- A hub with `u1` on a full capacity-1 channel and `u2` on a fresh channel. -/
def hubW4 : HubState :=
  ⟨[("u1", 1), ("u2", 2)], [(1, ⟨["old"], 1, false⟩), (2, newChan 256)]⟩

/-- A leaderboard hub with one client subscribed to the college scope `c42`. -/
def lbW : LHubState := ⟨[(⟨1, "college", "c42"⟩, 1)], [(1, newChan 256)]⟩

/-- A sample notification with no data map. -/
def notifW : NotificationPayload :=
  ⟨"n1", "task_approved", "Task Approved", "done", JValue.jnull, "2026-01-01T00:00:00Z"⟩

/-- A sample notification whose data map carries a string `user_id`. -/
def notifW10 : NotificationPayload :=
  ⟨"n2", "new_follower", "New follower", "someone followed you",
    JValue.jobj [("user_id", JValue.jstr "u1")], "2026-01-01T00:00:00Z"⟩

/-- A sample `json.Unmarshal` model recognizing a single broker payload. -/
def decodeW : Msg → Option NotificationPayload :=
  fun p => if p = "good" then some notifW10 else none

/-! ## Helper lemmas -/

theorem mem_of_assocGet_eq_some {K V : Type} [DecidableEq K]
    (l : List (K × V)) (k : K) (v : V) (h : assocGet l k = some v) : (k, v) ∈ l := by
  induction l with
  | nil => cases h
  | cons p rest ih =>
    obtain ⟨k0, v0⟩ := p
    by_cases h0 : k0 = k
    · subst h0
      simp [assocGet] at h
      subst h
      exact List.mem_cons_self _ _
    · simp [assocGet, h0] at h
      exact List.mem_cons_of_mem _ (ih h)

theorem chanOpenAt_elim (hp : ChanHeap) (qid : Nat) (h : chanOpenAt hp qid = true) :
    ∃ ch, assocGet hp qid = some ch ∧ ch.closed = false := by
  unfold chanOpenAt at h
  cases hg : assocGet hp qid with
  | none => rw [hg] at h; cases h
  | some ch =>
    rw [hg] at h
    exact ⟨ch, rfl, by simpa using h⟩

theorem chanTrySend_room (ch : ChanState) (m : Msg)
    (hop : ch.closed = false) (hroom : ch.buf.length < ch.cap) :
    chanTrySend ch m = some ({ ch with buf := ch.buf ++ [m] }, .sent) := by
  simp [chanTrySend, hop, hroom]

theorem chanTrySend_full (ch : ChanState) (m : Msg)
    (hop : ch.closed = false) (hfull : ¬ch.buf.length < ch.cap) :
    chanTrySend ch m = some (ch, .dropped) := by
  simp [chanTrySend, hop, hfull]

theorem chanClose_open (ch : ChanState) (hop : ch.closed = false) :
    chanClose ch = some { ch with closed := true } := by
  simp [chanClose, hop]

/-- Full characterization of the shared broadcast loop on a well-formed slice of
the registry: it never panics; an entry whose channel has room gets the message
appended and keeps its registration; an entry whose channel is full has the
channel closed and its registration deleted; everything else is untouched. -/
theorem fanoutGo_spec {K : Type} [DecidableEq K] (m : Msg) :
    ∀ (entries cs : List (K × Nat)) (hp : ChanHeap),
    (entries.map Prod.fst).Nodup →
    (entries.map Prod.snd).Nodup →
    (∀ p ∈ entries, chanOpenAt hp p.2 = true) →
    ∃ cs' hp', fanoutGo m entries cs hp = some (cs', hp') ∧
      (∀ k qid ch, (k, qid) ∈ entries → assocGet hp qid = some ch →
        if ch.buf.length < ch.cap
        then assocGet hp' qid = some { ch with buf := ch.buf ++ [m] } ∧
             assocGet cs' k = assocGet cs k
        else assocGet hp' qid = some { ch with closed := true } ∧
             assocGet cs' k = none) ∧
      (∀ k, k ∉ entries.map Prod.fst → assocGet cs' k = assocGet cs k) ∧
      (∀ qid, qid ∉ entries.map Prod.snd → assocGet hp' qid = assocGet hp qid) := by
  intro entries
  induction entries with
  | nil =>
    intro cs hp _ _ _
    exact ⟨cs, hp, rfl, fun k qid ch hmem => absurd hmem (List.not_mem_nil _),
      fun _ _ => rfl, fun _ _ => rfl⟩
  | cons e rest ih =>
    intro cs hp hndf hnds hopen
    obtain ⟨k, qid⟩ := e
    simp only [List.map_cons, List.nodup_cons] at hndf hnds
    obtain ⟨hkrest, hndf'⟩ := hndf
    obtain ⟨hqrest, hnds'⟩ := hnds
    obtain ⟨ch0, hg0, hcl0⟩ := chanOpenAt_elim hp qid (hopen (k, qid) (List.mem_cons_self _ _))
    by_cases hroom : ch0.buf.length < ch0.cap
    · -- non-full channel: message enqueued, registration kept
      set ch0' : ChanState := { ch0 with buf := ch0.buf ++ [m] } with hch0'
      set hp1 : ChanHeap := assocPut hp qid ch0' with hhp1
      have hopen1 : ∀ p ∈ rest, chanOpenAt hp1 p.2 = true := by
        intro p hp_mem
        have hq : p.2 ≠ qid := by
          intro hq; exact hqrest (hq ▸ List.mem_map.mpr ⟨p, hp_mem, rfl⟩)
        have := hopen p (List.mem_cons_of_mem _ hp_mem)
        unfold chanOpenAt at *
        rwa [assocGet_put_other hp qid p.2 ch0' (fun hh => hq hh.symm)]
      obtain ⟨cs', hp', hrun, hone, hcs, hhp⟩ := ih cs hp1 hndf' hnds' hopen1
      refine ⟨cs', hp', ?_, ?_, ?_, ?_⟩
      · simp only [fanoutGo, hg0, chanTrySend_room ch0 m hcl0 hroom]
        exact hrun
      · intro k1 q1 ch hmem hget
        rcases List.mem_cons.mp hmem with heq | hrest
        · cases heq
          rw [hg0] at hget
          cases hget
          rw [if_pos hroom]
          constructor
          · rw [hhp qid hqrest, hhp1, assocGet_put_self]
          · exact hcs k hkrest
        · have hq1 : q1 ≠ qid := by
            intro hq; exact hqrest (hq ▸ List.mem_map.mpr ⟨(k1, q1), hrest, rfl⟩)
          have hget1 : assocGet hp1 q1 = some ch := by
            rw [hhp1, assocGet_put_other hp qid q1 ch0' (fun hh => hq1 hh.symm)]
            exact hget
          exact hone k1 q1 ch hrest hget1
      · exact fun k1 hk1 => hcs k1 (fun hh => hk1 (List.mem_cons_of_mem _ hh))
      · intro q1 hq1
        have hq1' : q1 ∉ rest.map Prod.snd := fun hh => hq1 (List.mem_cons_of_mem _ hh)
        have hqne : q1 ≠ qid := fun hh => hq1 (hh ▸ List.mem_cons_self _ _)
        rw [hhp q1 hq1', hhp1, assocGet_put_other hp qid q1 ch0' (fun hh => hqne hh.symm)]
    · -- full channel: dropped, channel closed, registration deleted
      set chC : ChanState := { ch0 with closed := true } with hchC
      set cs0 : List (K × Nat) := assocDel cs k with hcs0
      set hp1 : ChanHeap := assocPut hp qid chC with hhp1
      have hopen1 : ∀ p ∈ rest, chanOpenAt hp1 p.2 = true := by
        intro p hp_mem
        have hq : p.2 ≠ qid := by
          intro hq; exact hqrest (hq ▸ List.mem_map.mpr ⟨p, hp_mem, rfl⟩)
        have := hopen p (List.mem_cons_of_mem _ hp_mem)
        unfold chanOpenAt at *
        rwa [assocGet_put_other hp qid p.2 chC (fun hh => hq hh.symm)]
      obtain ⟨cs', hp', hrun, hone, hcs, hhp⟩ := ih cs0 hp1 hndf' hnds' hopen1
      refine ⟨cs', hp', ?_, ?_, ?_, ?_⟩
      · simp only [fanoutGo, hg0, chanTrySend_full ch0 m hcl0 hroom,
          chanClose_open ch0 hcl0]
        exact hrun
      · intro k1 q1 ch hmem hget
        rcases List.mem_cons.mp hmem with heq | hrest
        · cases heq
          rw [hg0] at hget
          cases hget
          rw [if_neg hroom]
          constructor
          · rw [hhp qid hqrest, hhp1, assocGet_put_self]
          · rw [hcs k hkrest, hcs0, assocGet_del_self]
        · have hq1 : q1 ≠ qid := by
            intro hq; exact hqrest (hq ▸ List.mem_map.mpr ⟨(k1, q1), hrest, rfl⟩)
          have hk1 : k1 ≠ k := by
            intro hk; exact hkrest (hk ▸ List.mem_map.mpr ⟨(k1, q1), hrest, rfl⟩)
          have hget1 : assocGet hp1 q1 = some ch := by
            rw [hhp1, assocGet_put_other hp qid q1 chC (fun hh => hq1 hh.symm)]
            exact hget
          have hres := hone k1 q1 ch hrest hget1
          have hcs0get : assocGet cs0 k1 = assocGet cs k1 := by
            rw [hcs0]; exact assocGet_del_other cs k k1 (fun hh => hk1 hh.symm)
          by_cases hroom1 : ch.buf.length < ch.cap
          · rw [if_pos hroom1] at hres ⊢
            exact ⟨hres.1, by rw [hres.2, hcs0get]⟩
          · rw [if_neg hroom1] at hres ⊢
            exact hres
      · intro k1 hk1
        have hk1' : k1 ∉ rest.map Prod.fst := fun hh => hk1 (List.mem_cons_of_mem _ hh)
        have hkne : k1 ≠ k := fun hh => hk1 (hh ▸ List.mem_cons_self _ _)
        rw [hcs k1 hk1', hcs0, assocGet_del_other cs k k1 (fun hh => hkne hh.symm)]
      · intro q1 hq1
        have hq1' : q1 ∉ rest.map Prod.snd := fun hh => hq1 (List.mem_cons_of_mem _ hh)
        have hqne : q1 ≠ qid := fun hh => hq1 (hh ▸ List.mem_cons_self _ _)
        rw [hhp q1 hq1', hhp1, assocGet_put_other hp qid q1 chC (fun hh => hqne hh.symm)]

/-- `SendNotification` never panics and never returns an error on a well-formed
hub, and behaves as: no connection ⇒ no-op; full queue ⇒ no-op; otherwise the
serialized message is appended to that user's channel. -/
theorem sendNotification_ok (h : HubState) (uid : String) (n : NotificationPayload)
    (hopen : ∀ p ∈ h.clients, chanOpenAt h.chans p.2 = true) :
    ∃ h', SendNotification h uid n = some (h', none) ∧
      match assocGet h.clients uid with
      | none => h' = h
      | some qid => ∃ ch, assocGet h.chans qid = some ch ∧ ch.closed = false ∧
          (if ch.buf.length < ch.cap
           then h' = ⟨h.clients,
             assocPut h.chans qid
               { ch with buf := ch.buf ++ [marshalWSMessageNotification n] }⟩
           else h' = h) := by
  cases hc : assocGet h.clients uid with
  | none =>
    refine ⟨h, ?_, rfl⟩
    simp [SendNotification, hc]
  | some qid =>
    have hmem := mem_of_assocGet_eq_some h.clients uid qid hc
    obtain ⟨ch, hg, hcl⟩ := chanOpenAt_elim h.chans qid (hopen (uid, qid) hmem)
    by_cases hroom : ch.buf.length < ch.cap
    · refine ⟨⟨h.clients, assocPut h.chans qid
        { ch with buf := ch.buf ++ [marshalWSMessageNotification n] }⟩, ?_, ?_⟩
      · simp [SendNotification, hc, hg, chanTrySend_room ch _ hcl hroom]
      · exact ⟨ch, hg, hcl, by rw [if_pos hroom]⟩
    · refine ⟨h, ?_, ?_⟩
      · simp [SendNotification, hc, hg, chanTrySend_full ch _ hcl hroom]
      · exact ⟨ch, hg, hcl, by rw [if_neg hroom]⟩

/-- The coalescing loop concatenates, in order, exactly the messages it pops. -/
theorem coalesceLoop_joinNL (q : List Msg) : ∀ w : Msg,
    coalesceLoop q.length w q = (joinNL (w :: q), []) := by
  induction q with
  | nil => intro w; rfl
  | cons msg rest ih =>
    intro w
    have hstep : joinNL ((w ++ "\n" ++ msg) :: rest) = w ++ "\n" ++ joinNL (msg :: rest) := by
      cases rest with
      | nil => rfl
      | cons r rest' =>
        show (w ++ "\n" ++ msg) ++ "\n" ++ joinNL (r :: rest') =
          w ++ "\n" ++ (msg ++ "\n" ++ joinNL (r :: rest'))
        simp [String.append_assoc]
    calc coalesceLoop (msg :: rest).length w (msg :: rest)
        = coalesceLoop rest.length (w ++ "\n" ++ msg) rest := rfl
      _ = (joinNL ((w ++ "\n" ++ msg) :: rest), []) := ih _
      _ = (joinNL (w :: msg :: rest), []) := by
          rw [hstep]
          rfl

/-! ## Claim theorems -/

/-- C1: at most one connection per identity. After `register(id, c1)` followed by
`register(id, c2)` on any well-formed hub, exactly one connection for `id` is
registered, namely `c2`, and `c1`'s delivery queue was closed during the retire
phase of the second register, before `c2` was installed. -/
theorem C1_register_replaces (h0 : HubState) (id : String) (c1 c2 : Client)
    (ch1 : ChanState) (hwf : wellFormed h0)
    (h1id : c1.userID = id) (h2id : c2.userID = id)
    (hch1 : assocGet h0.chans c1.qid = some ch1) (hop : ch1.closed = false)
    (hstale : assocGet h0.clients id ≠ some c1.qid) :
    ∃ h1 hmid, registerStep h0 c1 = some h1 ∧
      retireOld h1 id = some hmid ∧
      assocGet hmid.chans c1.qid = some { ch1 with closed := true } ∧
      assocGet hmid.clients id = none ∧
      registerStep h1 c2 = some (installNew hmid c2) ∧
      assocGet (installNew hmid c2).clients id = some c2.qid ∧
      countKey (installNew hmid c2).clients id = 1 ∧
      assocGet (installNew hmid c2).chans c1.qid = some { ch1 with closed := true } := by
  obtain ⟨hndf, hnds, hopen⟩ := hwf
  have hstep1 : ∃ hA, retireOld h0 id = some hA ∧ assocGet hA.clients id = none ∧
      assocGet hA.chans c1.qid = some ch1 := by
    cases hc0 : assocGet h0.clients id with
    | none => exact ⟨h0, by simp [retireOld, hc0], hc0, hch1⟩
    | some q0 =>
      have hmem := mem_of_assocGet_eq_some _ _ _ hc0
      obtain ⟨och, hgo, hco⟩ := chanOpenAt_elim h0.chans q0 (hopen (id, q0) hmem)
      have hq0 : q0 ≠ c1.qid := fun hh => hstale (hh ▸ hc0)
      refine ⟨⟨assocDel h0.clients id, assocPut h0.chans q0 { och with closed := true }⟩,
        ?_, ?_, ?_⟩
      · simp [retireOld, hc0, hgo, chanClose_open och hco]
      · exact assocGet_del_self _ _
      · rw [show assocGet (assocPut h0.chans q0 { och with closed := true }) c1.qid =
            assocGet h0.chans c1.qid from assocGet_put_other _ _ _ _ hq0]
        exact hch1
  obtain ⟨hA, hret0, hAnone, hAch⟩ := hstep1
  have hreg1 : registerStep h0 c1 = some (installNew hA c1) := by
    simp [registerStep, h1id, hret0]
  have h1get : assocGet (installNew hA c1).clients id = some c1.qid := by
    simp [installNew, h1id, assocGet_put_self]
  have h1ch : assocGet (installNew hA c1).chans c1.qid = some ch1 := hAch
  have hretmid : retireOld (installNew hA c1) id =
      some ⟨assocDel (installNew hA c1).clients id,
        assocPut (installNew hA c1).chans c1.qid { ch1 with closed := true }⟩ := by
    simp [retireOld, h1get, h1ch, chanClose_open ch1 hop]
  refine ⟨installNew hA c1,
    ⟨assocDel (installNew hA c1).clients id,
      assocPut (installNew hA c1).chans c1.qid { ch1 with closed := true }⟩,
    hreg1, hretmid, ?_, ?_, ?_, ?_, ?_, ?_⟩
  · exact assocGet_put_self _ _ _
  · exact assocGet_del_self _ _
  · simp [registerStep, h2id, hretmid]
  · simp [installNew, h2id, assocGet_put_self]
  · simp [installNew, h2id, countKey_put_self]
  · exact assocGet_put_self _ _ _

/-- C1 witness: the theorem applied to a hub with two fresh channels and two
connections for user `u1`. -/
theorem C1_register_replaces_witness :
    ∃ h1 hmid, registerStep hubW ⟨"u1", 1, "user"⟩ = some h1 ∧
      retireOld h1 "u1" = some hmid ∧
      assocGet hmid.chans 1 = some { newChan 256 with closed := true } ∧
      assocGet hmid.clients "u1" = none ∧
      registerStep h1 ⟨"u1", 2, "admin"⟩ = some (installNew hmid ⟨"u1", 2, "admin"⟩) ∧
      assocGet (installNew hmid ⟨"u1", 2, "admin"⟩).clients "u1" = some 2 ∧
      countKey (installNew hmid ⟨"u1", 2, "admin"⟩).clients "u1" = 1 ∧
      assocGet (installNew hmid ⟨"u1", 2, "admin"⟩).chans 1 =
        some { newChan 256 with closed := true } :=
  C1_register_replaces hubW "u1" ⟨"u1", 1, "user"⟩ ⟨"u1", 2, "admin"⟩ (newChan 256)
    (by decide) rfl rfl (by decide) rfl (by decide)

/-- C2: the code has no staleness guard. On the state reached right after
`register("u1", c2)` replaced `c1` (identity mapped to channel 2, channel 1
already closed by the retire phase), the stale `unregister` from `c1`'s reader
finds the identity present, so it deletes `c2`'s registration and re-closes
`c1`'s already-closed channel — a `close of closed channel` panic in Go
(modelled as `none`). The second conjunct shows that even with `c1`'s channel
still open the registry does not stay unchanged: `c2`'s entry is removed and a
queue is closed, contradicting the claimed no-op. -/
theorem C2_stale_unregister_bug :
    unregisterStep ⟨[("u1", 2)], [(1, ⟨[], 256, true⟩), (2, ⟨[], 256, false⟩)]⟩
      ⟨"u1", 1, "user"⟩ = none ∧
    unregisterStep ⟨[("u1", 2)], [(1, ⟨[], 256, false⟩), (2, ⟨[], 256, false⟩)]⟩
      ⟨"u1", 1, "user"⟩ =
      some ⟨[], [(1, ⟨[], 256, true⟩), (2, ⟨[], 256, false⟩)]⟩ := by
  constructor <;> rfl

/-- C3: `SendNotification` never reports an error on a well-formed hub: with no
live connection for the identity the event is dropped and the call succeeds;
with a full delivery queue the event is dropped and the call succeeds; otherwise
exactly the serialized event is appended to that connection's queue. -/
theorem C3_sendNotification_total (h : HubState) (uid : String)
    (n : NotificationPayload) (hwf : wellFormed h) :
    ∃ h', SendNotification h uid n = some (h', none) ∧
      match assocGet h.clients uid with
      | none => h' = h
      | some qid => ∃ ch, assocGet h.chans qid = some ch ∧
          (if ch.buf.length < ch.cap
           then h' = ⟨h.clients, assocPut h.chans qid
             { ch with buf := ch.buf ++ [marshalWSMessageNotification n] }⟩
           else h' = h) := by
  obtain ⟨h', hrun, hchar⟩ := sendNotification_ok h uid n hwf.2.2
  refine ⟨h', hrun, ?_⟩
  cases hc : assocGet h.clients uid with
  | none => rw [hc] at hchar; exact hchar
  | some qid =>
    rw [hc] at hchar
    obtain ⟨ch, hg, _, hres⟩ := hchar
    exact ⟨ch, hg, hres⟩

/-- C3 witness: the theorem applied to a hub with `u1` registered on a fresh
channel and a concrete notification. -/
theorem C3_sendNotification_total_witness :
    ∃ h', SendNotification hubW3 "u1" notifW = some (h', none) ∧
      match assocGet hubW3.clients "u1" with
      | none => h' = hubW3
      | some qid => ∃ ch, assocGet hubW3.chans qid = some ch ∧
          (if ch.buf.length < ch.cap
           then h' = ⟨hubW3.clients, assocPut hubW3.chans qid
             { ch with buf := ch.buf ++ [marshalWSMessageNotification notifW] }⟩
           else h' = hubW3) :=
  C3_sendNotification_total hubW3 "u1" notifW (by decide)

/-- C4 counterexample: on a hub whose only client `u1` has a full queue, a
broadcast does not leave the recipient registered with its queue open — the
queue is closed and the registration is deleted, refuting the claim as stated. -/
theorem C4_counterexample :
    broadcastStep ⟨[("u1", 1)], [(1, ⟨["x"], 1, false⟩)]⟩ "m" =
      some ⟨[], [(1, ⟨["x"], 1, true⟩)]⟩ := by
  rfl

/-- C4 amended: broadcast delivers to every currently-registered identity with
drop-on-full semantics for the event, but a recipient whose queue is full is
additionally evicted: its delivery queue is closed and its registration is
removed from the hub. Recipients with queue room receive the event and remain
registered. -/
theorem C4_broadcast_evicts_full (h : HubState) (m : Msg) (hwf : wellFormed h) :
    ∃ h', broadcastStep h m = some h' ∧
      ∀ uid qid ch, (uid, qid) ∈ h.clients → assocGet h.chans qid = some ch →
        if ch.buf.length < ch.cap
        then assocGet h'.chans qid = some { ch with buf := ch.buf ++ [m] } ∧
             assocGet h'.clients uid = some qid
        else assocGet h'.chans qid = some { ch with closed := true } ∧
             assocGet h'.clients uid = none := by
  obtain ⟨hndf, hnds, hopen⟩ := hwf
  obtain ⟨cs', hp', hrun, hone, _, _⟩ :=
    fanoutGo_spec m h.clients h.clients h.chans hndf hnds hopen
  refine ⟨⟨cs', hp'⟩, by simp [broadcastStep, hrun], ?_⟩
  intro uid qid ch hmem hget
  have hres := hone uid qid ch hmem hget
  by_cases hroom : ch.buf.length < ch.cap
  · rw [if_pos hroom] at hres ⊢
    refine ⟨hres.1, ?_⟩
    rw [hres.2]
    exact assocGet_of_mem_nodup _ _ _ hmem hndf
  · rw [if_neg hroom] at hres ⊢
    exact hres

/-- C4 witness: the amended theorem applied to a hub where `u1`'s queue is full
and `u2`'s has room. -/
theorem C4_broadcast_evicts_full_witness :
    ∃ h', broadcastStep hubW4 "m" = some h' ∧
      ∀ uid qid ch, (uid, qid) ∈ hubW4.clients → assocGet hubW4.chans qid = some ch →
        if ch.buf.length < ch.cap
        then assocGet h'.chans qid = some { ch with buf := ch.buf ++ ["m"] } ∧
             assocGet h'.clients uid = some qid
        else assocGet h'.chans qid = some { ch with closed := true } ∧
             assocGet h'.clients uid = none :=
  C4_broadcast_evicts_full hubW4 "m" (by decide)

/-- C5 counterexample: the writer worker's deferred exit path does close the
transport (`c.Conn.Close()` in `writePump`'s defer), so starting from a fresh
connection the writer alone performs one close, and the two exit paths together
perform two — not exactly one. -/
theorem C5_counterexample :
    (writePumpExit ⟨0, 0⟩).transportCloses = 1 ∧
    (writePumpExit (readPumpExit ⟨0, 0⟩)).transportCloses = 2 := by
  constructor <;> rfl

/-- C5 amended: both workers close the transport on their exit paths — the
reader after triggering `unregister`, the writer without unregistering — so a
full teardown closes the transport twice (the duplicate close is a
transport-level no-op), not exactly once. -/
theorem C5_both_pumps_close (s : ConnTeardown) :
    readPumpExit s = closeTransport (sendUnregister s) ∧
    (readPumpExit s).transportCloses = s.transportCloses + 1 ∧
    (readPumpExit s).unregisterSends = s.unregisterSends + 1 ∧
    (writePumpExit s).transportCloses = s.transportCloses + 1 ∧
    (writePumpExit s).unregisterSends = s.unregisterSends ∧
    (writePumpExit (readPumpExit s)).transportCloses = s.transportCloses + 2 := by
  refine ⟨rfl, rfl, rfl, rfl, rfl, rfl⟩

/-- C6 counterexample: a leaderboard client subscribed to the college scope
`c42` receives a by-state update for scope `s9` — the hub applies no scope
filter on the update path, refuting the claim that mismatched scopes receive
nothing. -/
theorem C6_counterexample :
    lbDeliverUpdate ⟨[(⟨1, "college", "c42"⟩, 1)], [(1, newChan 256)]⟩
        (leaderboardUpdateMsg "state" "s9" 123) =
      some ⟨[(⟨1, "college", "c42"⟩, 1)],
        [(1, ⟨[leaderboardUpdateMsg "state" "s9" 123], 256, false⟩)]⟩ := by
  rfl

/-- C6 amended: a leaderboard update is forwarded verbatim to the broadcast path
and delivered to every currently-registered leaderboard client whose queue has
room, regardless of the client's cached scope membership — the scope
discriminator in the payload is never consulted for delivery (it is used only
for the initial snapshot). -/
theorem C6_no_scope_filter (h : LHubState) (lbType scopeID : String) (ts : Int)
    (hwf : lbWellFormed h) :
    ∃ h', lbDeliverUpdate h (leaderboardUpdateMsg lbType scopeID ts) = some h' ∧
      ∀ c qid ch, (c, qid) ∈ h.clients → assocGet h.chans qid = some ch →
        ch.buf.length < ch.cap →
        assocGet h'.chans qid =
          some { ch with buf := ch.buf ++ [leaderboardUpdateMsg lbType scopeID ts] } := by
  obtain ⟨hndf, hnds, hopen⟩ := hwf
  obtain ⟨cs', hp', hrun, hone, _, _⟩ :=
    fanoutGo_spec (leaderboardUpdateMsg lbType scopeID ts)
      h.clients h.clients h.chans hndf hnds hopen
  refine ⟨⟨cs', hp'⟩, by simp [lbDeliverUpdate, lbBroadcastStep, hrun], ?_⟩
  intro c qid ch hmem hget hroom
  have hres := hone c qid ch hmem hget
  rw [if_pos hroom] at hres
  exact hres.1

/-- C6 amended witness: a college-scope client receives a by-state update. -/
theorem C6_no_scope_filter_witness :
    ∃ h', lbDeliverUpdate lbW (leaderboardUpdateMsg "state" "s9" 123) = some h' ∧
      ∀ c qid ch, (c, qid) ∈ lbW.clients → assocGet lbW.chans qid = some ch →
        ch.buf.length < ch.cap →
        assocGet h'.chans qid =
          some { ch with buf := ch.buf ++ [leaderboardUpdateMsg "state" "s9" 123] } :=
  C6_no_scope_filter lbW "state" "s9" 123 (by decide)

/-- C7: the liveness constants are well-formed: `pingPeriod = (pongWait*9)/10`
is 54 seconds, strictly below the 60-second `pongWait`, and both the pong
handler and `readPump`'s initial deadline extend the read-deadline by the full
`pongWait` window. -/
theorem C7_liveness_contract :
    pingPeriod = 54 * second ∧ pingPeriod < pongWait ∧
    (∀ now, readDeadlineAfterPong now = now + pongWait) ∧
    (∀ now, readPumpInitialDeadline now = now + pongWait) :=
  ⟨by norm_num [pingPeriod, pongWait, second],
   by norm_num [pingPeriod, pongWait, second],
   fun _ => rfl, fun _ => rfl⟩

/-- C8: per-connection delivery is FIFO and coalescing is lossless: one flush of
the writer writes the received message and all currently-pending messages as a
single newline-separated frame, in enqueue order, with nothing duplicated or
skipped, leaving the queue drained. -/
theorem C8_writer_fifo_coalesce (message : Msg) (send : List Msg) :
    writePumpFlush message send = (joinNL (message :: send), []) :=
  coalesceLoop_joinNL send message

/-- C9: a handshake whose token is missing or fails validation is rejected
synchronously with 401 before the transport upgrade: no upgrade, no `Client`
object, no registration, no pumps — regardless of whether the upgrader would
have succeeded. -/
theorem C9_handshake_rejected (validate : String → Option Claims)
    (queryToken authHeader : String) (upgradeOk : Bool) (freshQid : Nat)
    (hbad : extractToken queryToken authHeader = "" ∨
      validate (extractToken queryToken authHeader) = none) :
    handleWSConnection validate queryToken authHeader upgradeOk freshQid =
      ⟨some 401, false, none, false, false⟩ := by
  unfold handleWSConnection
  rcases hbad with hb | hb
  · rw [if_pos hb]
  · by_cases he : extractToken queryToken authHeader = ""
    · rw [if_pos he]
    · rw [if_neg he, hb]

/-- C9 witness: the theorem applied to a request with no token at all. -/
theorem C9_handshake_rejected_witness :
    handleWSConnection (fun _ => none) "" "" true 7 =
      ⟨some 401, false, none, false, false⟩ :=
  C9_handshake_rejected (fun _ => none) "" "" true 7 (Or.inl (by decide))

/-- C10: the broker subscription callback attempts a local delivery exactly when
the payload decodes to a notification whose `Data` is a JSON object with a
string-valued `"user_id"`, and then only to that identity via
`SendNotification`; in every other case the state is untouched, nothing is
delivered, no error is raised, and the loop continues. -/
theorem C10_broker_dispatch (decode : Msg → Option NotificationPayload)
    (h : HubState) (payload : Msg) (hwf : wellFormed h) :
    ∃ h' att, processNotificationMsg decode h payload = some (h', att) ∧
      ((∃ n fields uid, decode payload = some n ∧ n.data = JValue.jobj fields ∧
          assocGet fields "user_id" = some (JValue.jstr uid) ∧
          att = some uid ∧ SendNotification h uid n = some (h', none)) ∨
       ((¬∃ n fields uid, decode payload = some n ∧ n.data = JValue.jobj fields ∧
          assocGet fields "user_id" = some (JValue.jstr uid)) ∧
        att = none ∧ h' = h)) := by
  cases hd : decode payload with
  | none =>
    refine ⟨h, none, by simp [processNotificationMsg, hd], Or.inr ⟨?_, rfl, rfl⟩⟩
    rintro ⟨n, f, u, hd', -, -⟩
    cases hd'
  | some n =>
    cases hdata : n.data with
    | jobj fields =>
      cases hlook : assocGet fields "user_id" with
      | none =>
        refine ⟨h, none, by simp [processNotificationMsg, hd, hdata, hlook],
          Or.inr ⟨?_, rfl, rfl⟩⟩
        rintro ⟨n', f', u', hd', hdata', hlook'⟩
        cases hd'
        rw [hdata] at hdata'
        cases hdata'
        rw [hlook] at hlook'
        cases hlook'
      | some v =>
        cases v with
        | jstr uid =>
          obtain ⟨h', hsend, -⟩ := sendNotification_ok h uid n hwf.2.2
          exact ⟨h', some uid,
            by simp [processNotificationMsg, hd, hdata, hlook, hsend],
            Or.inl ⟨n, fields, uid, rfl, hdata, hlook, rfl, hsend⟩⟩
        | jnull =>
          refine ⟨h, none, by simp [processNotificationMsg, hd, hdata, hlook],
            Or.inr ⟨?_, rfl, rfl⟩⟩
          rintro ⟨n', f', u', hd', hdata', hlook'⟩
          cases hd'
          rw [hdata] at hdata'
          cases hdata'
          rw [hlook] at hlook'
          cases hlook'
        | jbool b =>
          refine ⟨h, none, by simp [processNotificationMsg, hd, hdata, hlook],
            Or.inr ⟨?_, rfl, rfl⟩⟩
          rintro ⟨n', f', u', hd', hdata', hlook'⟩
          cases hd'
          rw [hdata] at hdata'
          cases hdata'
          rw [hlook] at hlook'
          cases hlook'
        | jnum m =>
          refine ⟨h, none, by simp [processNotificationMsg, hd, hdata, hlook],
            Or.inr ⟨?_, rfl, rfl⟩⟩
          rintro ⟨n', f', u', hd', hdata', hlook'⟩
          cases hd'
          rw [hdata] at hdata'
          cases hdata'
          rw [hlook] at hlook'
          cases hlook'
        | jarr xs =>
          refine ⟨h, none, by simp [processNotificationMsg, hd, hdata, hlook],
            Or.inr ⟨?_, rfl, rfl⟩⟩
          rintro ⟨n', f', u', hd', hdata', hlook'⟩
          cases hd'
          rw [hdata] at hdata'
          cases hdata'
          rw [hlook] at hlook'
          cases hlook'
        | jobj fs =>
          refine ⟨h, none, by simp [processNotificationMsg, hd, hdata, hlook],
            Or.inr ⟨?_, rfl, rfl⟩⟩
          rintro ⟨n', f', u', hd', hdata', hlook'⟩
          cases hd'
          rw [hdata] at hdata'
          cases hdata'
          rw [hlook] at hlook'
          cases hlook'
    | jnull =>
      refine ⟨h, none, by simp [processNotificationMsg, hd, hdata],
        Or.inr ⟨?_, rfl, rfl⟩⟩
      rintro ⟨n', f', u', hd', hdata', -⟩
      cases hd'
      rw [hdata] at hdata'
      cases hdata'
    | jbool b =>
      refine ⟨h, none, by simp [processNotificationMsg, hd, hdata],
        Or.inr ⟨?_, rfl, rfl⟩⟩
      rintro ⟨n', f', u', hd', hdata', -⟩
      cases hd'
      rw [hdata] at hdata'
      cases hdata'
    | jnum m =>
      refine ⟨h, none, by simp [processNotificationMsg, hd, hdata],
        Or.inr ⟨?_, rfl, rfl⟩⟩
      rintro ⟨n', f', u', hd', hdata', -⟩
      cases hd'
      rw [hdata] at hdata'
      cases hdata'
    | jstr s =>
      refine ⟨h, none, by simp [processNotificationMsg, hd, hdata],
        Or.inr ⟨?_, rfl, rfl⟩⟩
      rintro ⟨n', f', u', hd', hdata', -⟩
      cases hd'
      rw [hdata] at hdata'
      cases hdata'
    | jarr xs =>
      refine ⟨h, none, by simp [processNotificationMsg, hd, hdata],
        Or.inr ⟨?_, rfl, rfl⟩⟩
      rintro ⟨n', f', u', hd', hdata', -⟩
      cases hd'
      rw [hdata] at hdata'
      cases hdata'

/-- C10 witness: the theorem applied to a decode model recognizing one payload
whose data holds a string `user_id`, on a hub where that user is connected. -/
theorem C10_broker_dispatch_witness :
    ∃ h' att, processNotificationMsg decodeW hubW3 "good" = some (h', att) ∧
      ((∃ n fields uid, decodeW "good" = some n ∧ n.data = JValue.jobj fields ∧
          assocGet fields "user_id" = some (JValue.jstr uid) ∧
          att = some uid ∧ SendNotification hubW3 uid n = some (h', none)) ∨
       ((¬∃ n fields uid, decodeW "good" = some n ∧ n.data = JValue.jobj fields ∧
          assocGet fields "user_id" = some (JValue.jstr uid)) ∧
        att = none ∧ h' = hubW3)) :=
  C10_broker_dispatch decodeW hubW3 "good" (by decide)

end GroveWS
